import Mathlib

/-!
Shallow embedding of the acquisition–normalization–aggregation pipeline of the
app-store-review-scraper repository (src/app/engine.py for the Google Play /
MarketplaceA adapter and src/app/appstore_engine.py for the App Store /
MarketplaceB adapter), together with theorems settling the frozen claims.

Upstream network behaviour (HTTP responses, scraper-library results, raised
exceptions) is passed in explicitly as an `Outcome` value; the embedded
functions are the pure post-network part of the Python code, translated
branch-for-branch from the source.
-/

set_option maxHeartbeats 1000000
set_option maxRecDepth 100000
set_option linter.unusedVariables false

/-- Dynamic (Python) value, as far as the claims need to distinguish: the
rating / vote-count fields can hold `None`, a string, or a number. -/
inductive PyVal where
  | vNone
  | vStr (s : String)
  | vInt (n : Int)
deriving DecidableEq

/-- True exactly for numeric `PyVal`s (the repository never produces floats in
the fields modelled here, so `vInt` is the only numeric constructor). -/
def PyVal.isNumeric : PyVal → Bool
  | .vInt _ => true
  | _ => false

/-- True exactly when the value is a Python string. -/
def PyVal.isStr : PyVal → Bool
  | .vStr _ => true
  | _ => false

/-- The error dictionary both engines return on failure: always an "error" key
with the cause, plus whichever context keys the branch adds
(`app_id` / `app_name` / `suggestion` / `note`). -/
structure ErrorDict where
  error : String
  app_id : Option String := none
  app_name : Option String := none
  suggestion : Option String := none
  note : Option String := none
deriving DecidableEq

/-- Result of a reviews fetch: in Python, either a list of review dicts or a
single-element list holding one error dict.  The two cases are distinguishable
in Python by the "error" key, which review dicts never carry. -/
inductive FetchResult (α : Type) where
  | ok (reviews : List α)
  | err (e : ErrorDict)
deriving DecidableEq

/-- Length of the review list of an `ok` result (0 for an error result). -/
def FetchResult.lengthOk {α : Type} : FetchResult α → Nat
  | .ok l => l.length
  | .err _ => 0

/-- True exactly for the error variant. -/
def FetchResult.isErr {α : Type} : FetchResult α → Bool
  | .ok _ => false
  | .err _ => true

/-- The `app_id` context field of the error variant (`none` on success). -/
def FetchResult.errAppId {α : Type} : FetchResult α → Option String
  | .ok _ => none
  | .err e => e.app_id

/-- The `error` message of the error variant (`""` on success). -/
def FetchResult.errMsg {α : Type} : FetchResult α → String
  | .ok _ => ""
  | .err e => e.error

/-- True exactly for the error variant of an `Except` info result. -/
def infoIsErr {β : Type} : Except ErrorDict β → Bool
  | .error _ => true
  | .ok _ => false

/-- The `app_id` context field of an `Except` info error (`none` on success). -/
def infoErrAppId {β : Type} : Except ErrorDict β → Option String
  | .error e => e.app_id
  | .ok _ => none

/-- The `error` message of an `Except` info error (`""` on success). -/
def infoErrMsg {β : Type} : Except ErrorDict β → String
  | .error e => e.error
  | .ok _ => ""

/-- Python's `l[:k]` for an `int` bound `k`: nonnegative `k` takes the first
`k` elements; negative `k` stops `|k|` before the end (clamped at 0). -/
def pySlice {α : Type} (k : Int) (l : List α) : List α :=
  if 0 ≤ k then l.take k.toNat else l.take ((l.length : Int) + k).toNat

/-- Python's `str.strip()`: drop leading and trailing whitespace. -/
def pyStrip (s : String) : String :=
  String.mk (((s.data.dropWhile Char.isWhitespace).reverse.dropWhile
    Char.isWhitespace).reverse)

/-- Python's `str.isdigit()`: nonempty and all characters are digits. -/
def pyIsDigit (s : String) : Bool :=
  !s.data.isEmpty && s.data.all Char.isDigit

/-- Python's `str.lower()`: lower-case every character. -/
def pyLower (s : String) : String :=
  String.mk (s.data.map Char.toLower)

namespace GPlay

/-- Raw review dict delivered by the gplay-scraper library
(`reviews_analyze`), restricted to the keys `engine.fetch_app_reviews`
reads.  A key read with one-argument `.get` that is missing or `None` is
`none` / `vNone`; `thumbsUp` is read with default `0`, so presence of the
key is tracked by the `Option`. -/
structure RawReview where
  reviewId : Option String
  userName : Option String
  userImage : Option String
  score : PyVal
  date : Option String
  text : Option String
  thumbsUp : Option PyVal
  appVersion : Option String
  replyText : Option String
  replyDate : Option String
deriving DecidableEq

/-- Normalized review dict built by `engine.fetch_app_reviews`. -/
structure Review where
  review_id : Option String
  user_name : Option String
  user_image : Option String
  rating : PyVal
  date : Option String
  text : Option String
  thumbs_up : PyVal
  app_version : Option String
  reply_text : Option String
  reply_date : Option String
deriving DecidableEq

/-- The `review_info` dictionary construction of `engine.fetch_app_reviews`
(lines 144-155): straight field renaming; `score` is passed through
unchanged, `thumbsUp` defaults to `0`. -/
def normalizeReview (review : RawReview) : Review :=
  { review_id := review.reviewId
    user_name := review.userName
    user_image := review.userImage
    rating := review.score
    date := review.date
    text := review.text
    thumbs_up := review.thumbsUp.getD (PyVal.vInt 0)
    app_version := review.appVersion
    reply_text := review.replyText
    reply_date := review.replyDate }

/-- Outcome of the `scraper.reviews_analyze` call: either it raises, or it
returns a value that is `None` (`returns none`) or a list. -/
inductive Outcome where
  | raises (msg : String)
  | returns (data : Option (List RawReview))

/-- Sort mapping of `engine.fetch_app_reviews` (lines 111-117):
`sort_mapping.get(sort.lower(), "NEWEST")`. -/
def sort_value (sort : String) : String :=
  let s := pyLower sort
  if s = "newest" then "NEWEST"
  else if s = "rating" then "RATING"
  else if s = "helpfulness" then "RELEVANT"
  else "NEWEST"

/-- Embedding of `engine.fetch_app_reviews` (lines 86-167).  `count`, `lang`, `country`
and `sort` only parameterize the upstream call, whose result is the
`outcome` argument; `sort` is remapped by `sort_value` before that call. -/
def fetch_app_reviews (app_id : String) (count : Int) (lang country sort : String)
    (text_only : Bool) (outcome : Outcome) : FetchResult Review :=
  match outcome with
  | .raises msg =>
      .err { error := "Error fetching reviews: " ++ msg, app_id := some app_id }
  | .returns data =>
      let reviews_data := data.getD []
      if reviews_data.isEmpty then
        .err { error := "No reviews found", app_id := some app_id }
      else
        .ok (reviews_data.filterMap fun review =>
          if text_only = true ∧ review.text.getD "" = "" then none
          else some (normalizeReview review))

/-- Raw app-details dict delivered by `scraper.app_analyze`, restricted to the
keys `engine.fetch_app_info` reads. -/
structure RawInfo where
  appId : Option String
  title : Option String
  developer : Option String
  developerId : Option String
  icon : Option String
  score : PyVal
  ratings : PyVal
  reviews : PyVal
  minInstalls : PyVal
  price : PyVal
  currency : Option String
  description : Option String
  summary : Option String
  released : Option String
  updated : Option String
  version : Option String
  genre : Option String
  contentRating : Option String
  url : Option String
deriving DecidableEq

/-- Normalized app-info dict built by `engine.fetch_app_info`. -/
structure AppInfo where
  app_id : String
  title : String
  developer : String
  developer_id : Option String
  icon : Option String
  rating : PyVal
  ratings_count : PyVal
  reviews_count : PyVal
  installs : PyVal
  price : PyVal
  currency : Option String
  description : Option String
  summary : Option String
  released : Option String
  last_updated : Option String
  version : Option String
  category : Option String
  content_rating : Option String
  url : Option String
deriving DecidableEq

/-- Outcome of the `scraper.app_analyze` call; `returns none` covers a falsy
(`None` or empty) result. -/
inductive InfoOutcome where
  | raises (msg : String)
  | returns (result : Option RawInfo)

/-- Embedding of `engine.fetch_app_info` (lines 18-83). -/
def fetch_app_info (app_id : String) (lang country : String)
    (outcome : InfoOutcome) : Except ErrorDict AppInfo :=
  match outcome with
  | .raises msg =>
      .error { error := "Error fetching app info: " ++ msg, app_id := some app_id }
  | .returns none =>
      .error { error := "No data returned", app_id := some app_id }
  | .returns (some result) =>
      .ok { app_id := result.appId.getD app_id
            title := result.title.getD "N/A"
            developer := result.developer.getD "N/A"
            developer_id := result.developerId
            icon := result.icon
            rating := result.score
            ratings_count := result.ratings
            reviews_count := result.reviews
            installs := result.minInstalls
            price := result.price
            currency := result.currency
            description := result.description
            summary := result.summary
            released := result.released
            last_updated := result.updated
            version := result.version
            category := result.genre
            content_rating := result.contentRating
            url := result.url }

end GPlay

namespace AppStore

/-- One entry of the iTunes RSS feed, restricted to the nested labels
`appstore_engine` reads.  Each field is the string at the nested path (e.g.
`entry['id']['label']`), `none` when any step of the path is missing. -/
structure Entry where
  idLabel : Option String
  authorNameLabel : Option String
  ratingLabel : Option String
  updatedLabel : Option String
  titleLabel : Option String
  contentLabel : Option String
  versionLabel : Option String
  voteSumLabel : Option String
  voteCountLabel : Option String
  imNameLabel : Option String
  linkHref : Option String
  imImageLastLabel : Option String
deriving DecidableEq

/-- Normalized review dict built by `appstore_engine.fetch_app_reviews`
(lines 167-177).  `rating`, `vote_sum` and `vote_count` are Python strings
(the feed's `label` values), kept as delivered. -/
structure Review where
  review_id : String
  user_name : String
  rating : PyVal
  date : String
  title : String
  text : String
  version : String
  vote_sum : PyVal
  vote_count : PyVal
deriving DecidableEq

/-- The `review_info` dictionary construction of
`appstore_engine.fetch_app_reviews` (lines 167-177). -/
def normalizeReview (entry : Entry) : Review :=
  { review_id := entry.idLabel.getD ""
    user_name := entry.authorNameLabel.getD "Anonymous"
    rating := PyVal.vStr (entry.ratingLabel.getD "N/A")
    date := entry.updatedLabel.getD ""
    title := entry.titleLabel.getD ""
    text := entry.contentLabel.getD ""
    version := entry.versionLabel.getD "N/A"
    vote_sum := PyVal.vStr (entry.voteSumLabel.getD "0")
    vote_count := PyVal.vStr (entry.voteCountLabel.getD "0") }

/-- Body of a 2xx/other HTTP response: `response.json()` either raises
(malformed body) or yields the parsed `feed.entry` list (missing
`feed`/`entry` keys collapse to `[]`, as the chained `.get` defaults do). -/
inductive Body where
  | malformed (msg : String)
  | json (entries : List Entry)

/-- Outcome of the `requests.get` call: a `RequestException`
(timeout / network error) or a response with a status code and a body. -/
inductive Outcome where
  | networkError (msg : String)
  | response (status : Int) (body : Body)

/-- True for the transport-failure outcomes: network error, non-200 status,
or a 200 response whose body fails to parse. -/
def Outcome.isFailure : Outcome → Bool
  | .networkError _ => true
  | .response status body =>
      status != 200 ||
        (match body with
         | .malformed _ => true
         | .json _ => false)

/-- The app-id resolution both App Store functions start with: a numeric
`app_name` overrides `app_id`; a falsy (`None` or empty) final `app_id`
means no identifier is available. -/
def resolveId (app_name : String) (app_id : Option String) : Option String :=
  let app_id := if pyIsDigit app_name then some app_name else app_id
  match app_id with
  | some aid => if aid = "" then none else some aid
  | none => none

/-- Sort mapping of `appstore_engine.fetch_app_reviews` (line 132):
`"mostRecent" if sort == "mostRecent" else "mostHelpful"`. -/
def sort_by (sort : String) : String :=
  if sort = "mostRecent" then "mostRecent" else "mostHelpful"

/-- Embedding of `appstore_engine.fetch_app_reviews` (lines 91-196).  `country`, `count`
and `sort` parameterize the feed URL; the HTTP result is the `outcome`
argument; `sort` is remapped by `sort_by` before the call. -/
def fetch_app_reviews (app_name country : String) (count : Int)
    (app_id : Option String) (sort : String) (text_only : Bool)
    (outcome : Outcome) : FetchResult Review :=
  match resolveId app_name app_id with
  | none =>
      .err { error := "App ID is required for App Store scraping"
             app_name := some app_name
             suggestion := some "Find the numeric app ID from the App Store URL (e.g., 284882215 for Facebook)" }
  | some aid =>
      match outcome with
      | .networkError msg =>
          .err { error := "Network error: " ++ msg, app_id := some aid }
      | .response status body =>
          if status ≠ 200 then
            .err { error := "Failed to fetch reviews (HTTP " ++ toString status ++ ")"
                   app_id := some aid }
          else
            match body with
            | .malformed msg =>
                .err { error := "Error fetching App Store reviews: " ++ msg
                       app_id := some aid }
            | .json entries =>
                let max_count := min count 500
                let review_entries := if entries.length > 1 then entries.drop 1 else []
                if review_entries.isEmpty then
                  .err { error := "No reviews found for this app"
                         app_id := some aid
                         note := some "The app may not have any reviews yet, or reviews may be disabled." }
                else
                  .ok ((pySlice max_count review_entries).filterMap fun entry =>
                    if text_only = true ∧ pyStrip (entry.contentLabel.getD "") = "" then none
                    else some (normalizeReview entry))

/-- Normalized app-info dict built by `appstore_engine.fetch_app_info`. -/
structure AppInfo where
  app_id : String
  app_name : String
  country : String
  link : String
  icon : String
  fetched_at : String
  method : String
deriving DecidableEq

/-- Embedding of `appstore_engine.fetch_app_info` (lines 16-88).  `now` stands for
`datetime.now().isoformat()`. -/
def fetch_app_info (app_name country : String) (app_id : Option String)
    (now : String) (outcome : Outcome) : Except ErrorDict AppInfo :=
  match resolveId app_name app_id with
  | none =>
      .error { error := "App ID is required for App Store scraping"
               app_name := some app_name
               suggestion := some "Find the numeric app ID from the App Store URL (e.g., 284882215 from apps.apple.com/app/facebook/id284882215)" }
  | some aid =>
      match outcome with
      | .networkError msg =>
          .error { error := "Network error: " ++ msg, app_id := some aid }
      | .response status body =>
          if status ≠ 200 then
            .error { error := "Failed to fetch app info (HTTP " ++ toString status ++ ")"
                     app_id := some aid }
          else
            match body with
            | .malformed msg =>
                .error { error := "Error fetching App Store info: " ++ msg
                         app_id := some aid }
            | .json entries =>
                let app_entry := entries.headD
                  { idLabel := none, authorNameLabel := none, ratingLabel := none
                    updatedLabel := none, titleLabel := none, contentLabel := none
                    versionLabel := none, voteSumLabel := none, voteCountLabel := none
                    imNameLabel := none, linkHref := none, imImageLastLabel := none }
                .ok { app_id := aid
                      app_name := app_entry.imNameLabel.getD "N/A"
                      country := country
                      link := app_entry.linkHref.getD "N/A"
                      icon := app_entry.imImageLastLabel.getD "N/A"
                      fetched_at := now
                      method := "iTunes RSS Feed API" }

end AppStore

namespace Agg

/-- A review stamped with the `fetched_from_country` key the aggregation loop
adds on admission. -/
structure Tagged (α : Type) where
  review : α
  fetched_from_country : String
deriving DecidableEq

/-- Per-region outcome seen by the aggregation loop: the single-region fetch
either raises (caught by the loop's `try`) or returns its result list. -/
inductive RegionOutcome (α : Type) where
  | raises (msg : String)
  | result (r : FetchResult α)

/-- The "Add unique reviews" inner loop shared by both
`fetch_reviews_multi_country` implementations:
`if review_id and review_id not in seen_review_ids` — a review is admitted
only if its `review_id` is truthy (not `None`, not `""`) and unseen; on
admission the id joins the seen set and the review is appended stamped with
the current country.  A falsy id is `(getId review).getD "" = ""`. -/
def addUnique {α : Type} (getId : α → Option String) (country : String) :
    List α → List String → List (Tagged α) → List String × List (Tagged α)
  | [], seen, acc => (seen, acc)
  | review :: rest, seen, acc =>
      if (getId review).getD "" ≠ "" ∧ (getId review).getD "" ∉ seen then
        addUnique getId country rest ((getId review).getD "" :: seen)
          (acc ++ [⟨review, country⟩])
      else
        addUnique getId country rest seen acc

/-- The per-country loop shared by both `fetch_reviews_multi_country`
implementations: skip a region whose fetch raises or whose result is the
error singleton (detected in Python by `"error" in reviews[0]`), otherwise
run `addUnique` over its reviews. -/
def multiGo {α : Type} (getId : α → Option String)
    (fetch : String → RegionOutcome α) :
    List String → List String → List (Tagged α) → List (Tagged α)
  | [], _, acc => acc
  | country :: rest, seen, acc =>
      match fetch country with
      | .raises _ => multiGo getId fetch rest seen acc
      | .result (.err _) => multiGo getId fetch rest seen acc
      | .result (.ok reviews) =>
          multiGo getId fetch rest
            (addUnique getId country reviews seen acc).1
            (addUnique getId country reviews seen acc).2

/-- The multi-country aggregation shared by `engine` and `appstore_engine`
(`fetch_reviews_multi_country`): empty seen set and output, then the
per-country loop; the accumulated list is returned unconditionally. -/
def fetch_reviews_multi_country {α : Type} (getId : α → Option String)
    (fetch : String → RegionOutcome α) (countries : List String) :
    List (Tagged α) :=
  multiGo getId fetch countries [] []

/-- The `review_id` values of an output list (each admitted review has one). -/
def accIds {α : Type} (getId : α → Option String) (acc : List (Tagged α)) :
    List String :=
  acc.filterMap fun t => getId t.review

/-- The reviews list of an `ok` region outcome, `[]` otherwise. -/
def okList {α : Type} : RegionOutcome α → List α
  | .result (.ok l) => l
  | _ => []

/-- A truthy occurrence of `rid` in a region's review list. -/
def ContainsId {α : Type} (getId : α → Option String) (rid : String)
    (l : List α) : Prop :=
  rid ≠ "" ∧ ∃ r ∈ l, getId r = some rid

instance {α : Type} (getId : α → Option String) (rid : String) (l : List α) :
    Decidable (ContainsId getId rid l) := by
  unfold ContainsId
  exact inferInstance

/-- The first region of the list whose fetch succeeded and whose review list
contains a truthy occurrence of `rid` (the region first-region-wins dedup
must charge `rid` to). -/
def firstCountryWith {α : Type} (getId : α → Option String)
    (fetch : String → RegionOutcome α) (rid : String) :
    List String → Option String
  | [] => none
  | country :: rest =>
      match fetch country with
      | .result (.ok l) =>
          if ContainsId getId rid l then some country
          else firstCountryWith getId fetch rid rest
      | _ => firstCountryWith getId fetch rid rest

/-- True when the region outcome is skipped by the loop's error handling:
a raise or an error-singleton result. -/
def RegionOutcome.isErrorOrRaise {α : Type} : RegionOutcome α → Bool
  | .raises _ => true
  | .result (.err _) => true
  | .result (.ok _) => false

/-- True when the region contributes nothing: raised, error result, or an
empty success list. -/
def RegionOutcome.nothingUsable {α : Type} : RegionOutcome α → Bool
  | .raises _ => true
  | .result (.err _) => true
  | .result (.ok l) => l.isEmpty

end Agg

namespace GPlay

/-- Embedding of `engine.fetch_reviews_multi_country` (lines 170-229): the shared
aggregation loop driven by `engine.fetch_app_reviews`, reviews keyed by
`review.get("review_id")`; `countries = None` selects the documented
default list. -/
def fetch_reviews_multi_country (app_id : String)
    (countries : Option (List String)) (count_per_country : Int)
    (lang sort : String) (text_only : Bool) (env : String → Outcome) :
    List (Agg.Tagged Review) :=
  let cs := countries.getD ["us", "kr", "jp", "gb", "de", "fr", "in", "br"]
  Agg.fetch_reviews_multi_country (fun r => r.review_id)
    (fun country => .result
      (fetch_app_reviews app_id count_per_country lang country sort text_only
        (env country)))
    cs

end GPlay

namespace AppStore

/-- Embedding of `appstore_engine.fetch_reviews_multi_country` (lines 199-259): the shared
aggregation loop driven by `appstore_engine.fetch_app_reviews`; the
`review_id` key is always present on App Store reviews, so `get` yields the
string itself. -/
def fetch_reviews_multi_country (app_name : String)
    (countries : Option (List String)) (count_per_country : Int)
    (app_id : Option String) (sort : String) (text_only : Bool)
    (env : String → Outcome) : List (Agg.Tagged Review) :=
  let cs := countries.getD ["us", "gb", "ca", "au", "de", "fr", "jp", "kr"]
  Agg.fetch_reviews_multi_country (fun r => some r.review_id)
    (fun country => .result
      (fetch_app_reviews app_name country count_per_country app_id sort
        text_only (env country)))
    cs

end AppStore

/-! ## Concrete fixtures used by witnesses and counterexamples -/

/-- Feed entry with every nested label missing. -/
def blankEntry : AppStore.Entry :=
  { idLabel := none, authorNameLabel := none, ratingLabel := none,
    updatedLabel := none, titleLabel := none, contentLabel := none,
    versionLabel := none, voteSumLabel := none, voteCountLabel := none,
    imNameLabel := none, linkHref := none, imImageLastLabel := none }

/-- Raw Google Play review with every key missing. -/
def blankRawReview : GPlay.RawReview :=
  { reviewId := none, userName := none, userImage := none,
    score := PyVal.vNone, date := none, text := none, thumbsUp := none,
    appVersion := none, replyText := none, replyDate := none }

/-- A Google Play review whose text is whitespace-only. -/
def wsRawReview : GPlay.RawReview :=
  { blankRawReview with
    reviewId := some "r1"
    score := PyVal.vInt 4
    text := some " " }

/-- Its normalization. -/
def wsReview : GPlay.Review := GPlay.normalizeReview wsRawReview

/-- Upstream outcome delivering exactly the whitespace-only review. -/
def wsOutcome : GPlay.Outcome := .returns (some [wsRawReview])

/-- A Google Play review with ordinary text. -/
def goodRaw : GPlay.RawReview :=
  { blankRawReview with
    reviewId := some "r2"
    score := PyVal.vInt 5
    text := some "Nice" }

/-- The metadata entry the iTunes feed puts first. -/
def feedMeta : AppStore.Entry :=
  { blankEntry with
    imNameLabel := some "SomeApp"
    linkHref := some "https://apps.example/id284882215" }

/-- An ordinary review entry of the iTunes feed (string-typed rating). -/
def feedReview : AppStore.Entry :=
  { blankEntry with
    idLabel := some "r9"
    contentLabel := some "Great app"
    ratingLabel := some "5"
    authorNameLabel := some "alice" }

/-- A feed of one metadata entry followed by 502 review entries. -/
def bigFeed : List AppStore.Entry := feedMeta :: List.replicate 502 feedReview

/-- Identity id accessor for aggregation scenarios over bare id strings. -/
def scenarioGetId : String → Option String := fun s => some s

/-- The spec scenario: region us yields r1 and r2, region gb yields r2 and
r3, every other region fails. -/
def scenarioFetch : String → Agg.RegionOutcome String := fun c =>
  if c = "us" then .result (.ok ["r1", "r2"])
  else if c = "gb" then .result (.ok ["r2", "r3"])
  else .result (.err { error := "HTTP 404" })

/-- An environment in which every upstream Google Play call times out. -/
def downEnv : String → GPlay.Outcome := fun c => .raises "Network timeout"

/-- A per-region fetch that always yields the error singleton. -/
def errFetch : String → Agg.RegionOutcome String := fun c =>
  .result (.err { error := "HTTP 500" })

/-- Id accessor over reviews that are bare optional ids. -/
def optGetId : Option String → Option String := fun o => o

/-- Region us yields one review with a missing id, one with an empty id and
one with a truthy id; other regions fail. -/
def mixedFetch : String → Agg.RegionOutcome (Option String) := fun c =>
  if c = "us" then .result (.ok [none, some "", some "ok1"])
  else .result (.err { error := "HTTP 500" })

/-! ## Helper lemmas about the aggregation loop -/

namespace Agg

variable {α : Type}

/-- An `Option String` whose Python truthiness test succeeds is `some` of its
default-read value. -/
theorem getD_truthy {o : Option String} (h : o.getD "" ≠ "") :
    o = some (o.getD "") := by
  cases o with
  | none => exact absurd rfl h
  | some s => rfl

theorem multiGo_cons (getId : α → Option String)
    (fetch : String → RegionOutcome α) (c : String) (rest : List String)
    (seen : List String) (acc : List (Tagged α)) :
    multiGo getId fetch (c :: rest) seen acc =
      match fetch c with
      | .raises _ => multiGo getId fetch rest seen acc
      | .result (.err _) => multiGo getId fetch rest seen acc
      | .result (.ok reviews) =>
          multiGo getId fetch rest
            (addUnique getId c reviews seen acc).1
            (addUnique getId c reviews seen acc).2 := rfl

theorem multiGo_cons_skip (getId : α → Option String)
    (fetch : String → RegionOutcome α) {c : String}
    (h : (fetch c).isErrorOrRaise = true) (rest : List String)
    (seen : List String) (acc : List (Tagged α)) :
    multiGo getId fetch (c :: rest) seen acc =
      multiGo getId fetch rest seen acc := by
  rw [multiGo_cons]
  cases hf : fetch c with
  | raises msg => rfl
  | result r =>
      cases r with
      | err e => rfl
      | ok reviews => rw [hf] at h; simp [RegionOutcome.isErrorOrRaise] at h

theorem multiGo_cons_ok (getId : α → Option String)
    (fetch : String → RegionOutcome α) {c : String} {reviews : List α}
    (h : fetch c = .result (.ok reviews)) (rest : List String)
    (seen : List String) (acc : List (Tagged α)) :
    multiGo getId fetch (c :: rest) seen acc =
      multiGo getId fetch rest
        (addUnique getId c reviews seen acc).1
        (addUnique getId c reviews seen acc).2 := by
  rw [multiGo_cons, h]

theorem firstCountryWith_cons (getId : α → Option String)
    (fetch : String → RegionOutcome α) (rid : String) (c : String)
    (rest : List String) :
    firstCountryWith getId fetch rid (c :: rest) =
      match fetch c with
      | .result (.ok l) =>
          if ContainsId getId rid l then some c
          else firstCountryWith getId fetch rid rest
      | _ => firstCountryWith getId fetch rid rest := rfl

theorem firstCountryWith_cons_notOk (getId : α → Option String)
    (fetch : String → RegionOutcome α) (rid : String) {c : String}
    (h : ∀ l, fetch c ≠ .result (.ok l)) (rest : List String) :
    firstCountryWith getId fetch rid (c :: rest) =
      firstCountryWith getId fetch rid rest := by
  rw [firstCountryWith_cons]
  cases hf : fetch c with
  | raises msg => rfl
  | result r =>
      cases r with
      | err e => rfl
      | ok l => exact absurd hf (h l)

theorem firstCountryWith_cons_ok (getId : α → Option String)
    (fetch : String → RegionOutcome α) (rid : String) {c : String}
    {l : List α} (h : fetch c = .result (.ok l)) (rest : List String) :
    firstCountryWith getId fetch rid (c :: rest) =
      if ContainsId getId rid l then some c
      else firstCountryWith getId fetch rid rest := by
  rw [firstCountryWith_cons, h]

theorem addUnique_fst_mono (getId : α → Option String) (country : String) :
    ∀ (rs : List α) (seen : List String) (acc : List (Tagged α)),
      seen ⊆ (addUnique getId country rs seen acc).1 := by
  intro rs
  induction rs with
  | nil => intro seen acc; exact fun x hx => hx
  | cons r0 rest ih =>
      intro seen acc
      simp only [addUnique]
      by_cases hc : (getId r0).getD "" ≠ "" ∧ (getId r0).getD "" ∉ seen
      · rw [if_pos hc]
        exact fun x hx => ih _ _ (List.mem_cons_of_mem _ hx)
      · rw [if_neg hc]
        exact ih seen acc

theorem addUnique_fst_covers (getId : α → Option String) (country : String) :
    ∀ (rs : List α) (seen : List String) (acc : List (Tagged α)) (r : α)
      (rid : String), r ∈ rs → getId r = some rid → rid ≠ "" →
      rid ∈ (addUnique getId country rs seen acc).1 := by
  intro rs
  induction rs with
  | nil => intro seen acc r rid hr; exact absurd hr (List.not_mem_nil r)
  | cons r0 rest ih =>
      intro seen acc r rid hr hid hne
      simp only [addUnique]
      rcases List.mem_cons.1 hr with hEq | hMem
      · subst hEq
        rw [hid]
        simp only [Option.getD_some]
        by_cases hc : rid ≠ "" ∧ rid ∉ seen
        · rw [if_pos hc]
          exact addUnique_fst_mono getId country rest _ _
            (List.mem_cons_self rid seen)
        · rw [if_neg hc]
          have hseen : rid ∈ seen := by
            by_contra hn
            exact hc ⟨hne, hn⟩
          exact addUnique_fst_mono getId country rest seen acc hseen
      · by_cases hc : (getId r0).getD "" ≠ "" ∧ (getId r0).getD "" ∉ seen
        · rw [if_pos hc]
          exact ih _ _ r rid hMem hid hne
        · rw [if_neg hc]
          exact ih seen acc r rid hMem hid hne

theorem addUnique_snd_mem (getId : α → Option String) (country : String) :
    ∀ (rs : List α) (seen : List String) (acc : List (Tagged α))
      (t : Tagged α), t ∈ (addUnique getId country rs seen acc).2 →
      t ∈ acc ∨ (t.fetched_from_country = country ∧ t.review ∈ rs ∧
        ∃ rid, getId t.review = some rid ∧ rid ≠ "" ∧ rid ∉ seen) := by
  intro rs
  induction rs with
  | nil => intro seen acc t ht; exact Or.inl ht
  | cons r0 rest ih =>
      intro seen acc t ht
      revert ht
      simp only [addUnique]
      by_cases hc : (getId r0).getD "" ≠ "" ∧ (getId r0).getD "" ∉ seen
      · rw [if_pos hc]
        intro ht
        rcases ih _ _ t ht with h | ⟨h1, h2, h3⟩
        · rcases List.mem_append.1 h with h | h
          · exact Or.inl h
          · have hEq : t = ⟨r0, country⟩ := List.mem_singleton.1 h
            subst hEq
            exact Or.inr ⟨rfl, List.mem_cons_self r0 rest,
              (getId r0).getD "", getD_truthy hc.1, hc.1, hc.2⟩
        · rcases h3 with ⟨rid, ha, hb, hcns⟩
          exact Or.inr ⟨h1, List.mem_cons_of_mem r0 h2, rid, ha, hb,
            fun hx => hcns (List.mem_cons_of_mem _ hx)⟩
      · rw [if_neg hc]
        intro ht
        rcases ih seen acc t ht with h | ⟨h1, h2, h3⟩
        · exact Or.inl h
        · exact Or.inr ⟨h1, List.mem_cons_of_mem r0 h2, h3⟩

theorem accIds_append_single (getId : α → Option String)
    (acc : List (Tagged α)) (r : α) (c : String) (rid : String)
    (h : getId r = some rid) :
    accIds getId (acc ++ [⟨r, c⟩]) = accIds getId acc ++ [rid] := by
  simp [accIds, List.filterMap_append, h]

theorem addUnique_inv (getId : α → Option String) (country : String) :
    ∀ (rs : List α) (seen : List String) (acc : List (Tagged α)),
      (∀ rid, rid ∈ accIds getId acc → rid ∈ seen) →
      (accIds getId acc).Nodup →
      (∀ rid, rid ∈ accIds getId (addUnique getId country rs seen acc).2 →
        rid ∈ (addUnique getId country rs seen acc).1) ∧
      (accIds getId (addUnique getId country rs seen acc).2).Nodup := by
  intro rs
  induction rs with
  | nil => intro seen acc hcov hnd; exact ⟨hcov, hnd⟩
  | cons r0 rest ih =>
      intro seen acc hcov hnd
      simp only [addUnique]
      by_cases hc : (getId r0).getD "" ≠ "" ∧ (getId r0).getD "" ∉ seen
      · rw [if_pos hc]
        have hsome : getId r0 = some ((getId r0).getD "") := getD_truthy hc.1
        have hids : accIds getId (acc ++ [⟨r0, country⟩]) =
            accIds getId acc ++ [(getId r0).getD ""] :=
          accIds_append_single getId acc r0 country _ hsome
        refine ih ((getId r0).getD "" :: seen) (acc ++ [⟨r0, country⟩]) ?_ ?_
        · intro rid hrid
          rw [hids] at hrid
          rcases List.mem_append.1 hrid with h | h
          · exact List.mem_cons_of_mem _ (hcov rid h)
          · rw [List.mem_singleton.1 h]
            exact List.mem_cons_self _ seen
        · rw [hids, List.nodup_append]
          refine ⟨hnd, List.nodup_singleton _, ?_⟩
          intro rid hrid hrid'
          rw [List.mem_singleton.1 hrid'] at hrid
          exact hc.2 (hcov _ hrid)
      · rw [if_neg hc]
        exact ih seen acc hcov hnd

theorem multiGo_nodup (getId : α → Option String)
    (fetch : String → RegionOutcome α) :
    ∀ (countries : List String) (seen : List String) (acc : List (Tagged α)),
      (∀ rid, rid ∈ accIds getId acc → rid ∈ seen) →
      (accIds getId acc).Nodup →
      (accIds getId (multiGo getId fetch countries seen acc)).Nodup := by
  intro countries
  induction countries with
  | nil => intro seen acc hcov hnd; exact hnd
  | cons c rest ih =>
      intro seen acc hcov hnd
      rw [multiGo_cons]
      cases hf : fetch c with
      | raises msg => exact ih seen acc hcov hnd
      | result r =>
          cases r with
          | err e => exact ih seen acc hcov hnd
          | ok reviews =>
              have h := addUnique_inv getId c reviews seen acc hcov hnd
              exact ih _ _ h.1 h.2

theorem multiGo_mem (getId : α → Option String)
    (fetch : String → RegionOutcome α) :
    ∀ (countries : List String) (seen : List String) (acc : List (Tagged α))
      (t : Tagged α), t ∈ multiGo getId fetch countries seen acc →
      t ∈ acc ∨ (t.review ∈ okList (fetch t.fetched_from_country) ∧
        ∃ rid, getId t.review = some rid ∧ rid ≠ "") := by
  intro countries
  induction countries with
  | nil => intro seen acc t ht; exact Or.inl ht
  | cons c rest ih =>
      intro seen acc t ht
      revert ht
      rw [multiGo_cons]
      cases hf : fetch c with
      | raises msg =>
          intro ht
          exact ih seen acc t ht
      | result r =>
          cases r with
          | err e => intro ht; exact ih seen acc t ht
          | ok reviews =>
              intro ht
              rcases ih _ _ t ht with h | h
              · rcases addUnique_snd_mem getId c reviews seen acc t h with
                  h' | ⟨h1, h2, rid, h3, h4, h5⟩
                · exact Or.inl h'
                · refine Or.inr ⟨?_, rid, h3, h4⟩
                  rw [h1, hf]
                  exact h2
              · exact Or.inr h

theorem multiGo_first (getId : α → Option String)
    (fetch : String → RegionOutcome α) :
    ∀ (countries : List String) (seen : List String) (acc : List (Tagged α))
      (t : Tagged α) (rid : String),
      t ∈ multiGo getId fetch countries seen acc →
      getId t.review = some rid →
      t ∈ acc ∨ (rid ∉ seen ∧
        firstCountryWith getId fetch rid countries =
          some t.fetched_from_country) := by
  intro countries
  induction countries with
  | nil => intro seen acc t rid ht hid; exact Or.inl ht
  | cons c rest ih =>
      intro seen acc t rid ht hid
      revert ht
      rw [multiGo_cons]
      cases hf : fetch c with
      | raises msg =>
          intro ht
          rcases ih seen acc t rid ht hid with h | ⟨h1, h2⟩
          · exact Or.inl h
          · refine Or.inr ⟨h1, ?_⟩
            rw [firstCountryWith_cons_notOk getId fetch rid
              (fun l hl => by rw [hf] at hl; exact RegionOutcome.noConfusion hl)]
            exact h2
      | result r =>
          cases r with
          | err e =>
              intro ht
              rcases ih seen acc t rid ht hid with h | ⟨h1, h2⟩
              · exact Or.inl h
              · refine Or.inr ⟨h1, ?_⟩
                rw [firstCountryWith_cons_notOk getId fetch rid
                  (fun l hl => by
                    rw [hf] at hl
                    exact FetchResult.noConfusion (RegionOutcome.result.inj hl))]
                exact h2
          | ok reviews =>
              intro ht
              rcases ih _ _ t rid ht hid with h | ⟨h1, h2⟩
              · rcases addUnique_snd_mem getId c reviews seen acc t h with
                  h' | ⟨hc1, hc2, rid', hc3, hc4, hc5⟩
                · exact Or.inl h'
                · have hrr : rid' = rid := Option.some.inj (hc3.symm.trans hid)
                  subst hrr
                  refine Or.inr ⟨hc5, ?_⟩
                  rw [firstCountryWith_cons_ok getId fetch rid' hf]
                  have hcontains : ContainsId getId rid' reviews :=
                    ⟨hc4, t.review, hc2, hc3⟩
                  rw [if_pos hcontains, hc1]
              · have hnseen : rid ∉ seen := fun hx =>
                  h1 (addUnique_fst_mono getId c reviews seen acc hx)
                have hnc : ¬ ContainsId getId rid reviews := by
                  intro hcontains
                  rcases hcontains with ⟨hne, r', hr', hid'⟩
                  exact h1 (addUnique_fst_covers getId c reviews seen acc
                    r' rid hr' hid' hne)
                refine Or.inr ⟨hnseen, ?_⟩
                rw [firstCountryWith_cons_ok getId fetch rid hf, if_neg hnc]
                exact h2

theorem multiGo_skip (getId : α → Option String)
    (fetch : String → RegionOutcome α) (c : String)
    (hc : (fetch c).isErrorOrRaise = true) :
    ∀ (pre post : List String) (seen : List String) (acc : List (Tagged α)),
      multiGo getId fetch (pre ++ c :: post) seen acc =
        multiGo getId fetch (pre ++ post) seen acc := by
  intro pre
  induction pre with
  | nil =>
      intro post seen acc
      rw [List.nil_append, List.nil_append, multiGo_cons_skip getId fetch hc]
  | cons c0 rest ih =>
      intro post seen acc
      rw [List.cons_append, List.cons_append, multiGo_cons, multiGo_cons]
      cases hf : fetch c0 with
      | raises msg => exact ih post seen acc
      | result r =>
          cases r with
          | err e => exact ih post seen acc
          | ok reviews => exact ih post _ _

theorem multiGo_all_nothing (getId : α → Option String)
    (fetch : String → RegionOutcome α) :
    ∀ (countries : List String) (seen : List String) (acc : List (Tagged α)),
      (∀ c ∈ countries, (fetch c).nothingUsable = true) →
      multiGo getId fetch countries seen acc = acc := by
  intro countries
  induction countries with
  | nil => intro seen acc h; rfl
  | cons c rest ih =>
      intro seen acc h
      have hc := h c (List.mem_cons_self c rest)
      have hrest : ∀ c' ∈ rest, (fetch c').nothingUsable = true :=
        fun c' hc' => h c' (List.mem_cons_of_mem c hc')
      rw [multiGo_cons]
      cases hf : fetch c with
      | raises msg => exact ih seen acc hrest
      | result r =>
          cases r with
          | err e => exact ih seen acc hrest
          | ok reviews =>
              rw [hf] at hc
              simp only [RegionOutcome.nothingUsable,
                List.isEmpty_iff] at hc
              subst hc
              exact ih seen acc hrest

end Agg

/-! ## Helper lemmas about the two adapters -/

/-- A string with a nonempty prefix is nonempty. -/
theorem append_ne_empty_of_left (a b : String) (h : a ≠ "") : a ++ b ≠ "" := by
  intro hab
  apply h
  have hdata := congrArg String.data hab
  simp only [String.data_append] at hdata
  have ha : a.data = [] := (List.append_eq_nil.mp hdata).1
  cases a
  simp only [String.data] at ha
  rw [ha]

/-- Inversion of a successful Google Play fetch: the upstream call returned a
nonempty list, and the result is exactly the text-filtered normalization of
it. -/
theorem GPlay.reviews_ok_inversion (app_id : String) (count : Int)
    (lang country sort : String) (text_only : Bool) (outcome : Outcome)
    (l : List Review)
    (h : fetch_app_reviews app_id count lang country sort text_only outcome =
      .ok l) :
    ∃ data, outcome = .returns (some data) ∧ data ≠ [] ∧
      l = data.filterMap (fun review =>
        if text_only = true ∧ review.text.getD "" = "" then none
        else some (normalizeReview review)) := by
  simp only [fetch_app_reviews] at h
  split at h
  · exact FetchResult.noConfusion h
  · rename_i data
    split at h
    · exact FetchResult.noConfusion h
    · rename_i hne
      cases data with
      | none => simp at hne
      | some d =>
          refine ⟨d, rfl, ?_, (FetchResult.ok.inj h).symm⟩
          intro hd
          subst hd
          simp at hne

/-- Inversion of a successful App Store fetch: an identifier was resolved,
the HTTP call returned 200 with a parsed feed of more than one entry, and
the result is the sliced, text-filtered normalization of the entries after
the first. -/
theorem AppStore.entries_ok_inversion (app_name country : String) (count : Int)
    (app_id : Option String) (sort : String) (text_only : Bool)
    (outcome : Outcome) (l : List Review)
    (h : fetch_app_reviews app_name country count app_id sort text_only
      outcome = .ok l) :
    ∃ aid entries, resolveId app_name app_id = some aid ∧
      outcome = .response 200 (.json entries) ∧ 1 < entries.length ∧
      l = (pySlice (min count 500) (entries.drop 1)).filterMap (fun entry =>
        if text_only = true ∧ pyStrip (entry.contentLabel.getD "") = "" then none
        else some (normalizeReview entry)) := by
  simp only [fetch_app_reviews] at h
  split at h
  · exact FetchResult.noConfusion h
  · rename_i aid hr
    split at h
    · exact FetchResult.noConfusion h
    · rename_i status body
      split at h
      · exact FetchResult.noConfusion h
      · rename_i hstatus
        have hstatus' : status = 200 := not_not.mp hstatus
        subst hstatus'
        split at h
        · exact FetchResult.noConfusion h
        · rename_i entries
          by_cases hlen : 1 < entries.length
          · rw [if_pos hlen] at h
            split at h
            · exact FetchResult.noConfusion h
            · exact ⟨aid, entries, hr, rfl, hlen, (FetchResult.ok.inj h).symm⟩
          · rw [if_neg hlen] at h
            simp at h

/-- The slice of a list is one of its sublists (element-wise). -/
theorem pySlice_subset {α : Type} (k : Int) (l : List α) : pySlice k l ⊆ l := by
  rw [pySlice]
  split
  · exact List.take_subset _ l
  · exact List.take_subset _ l

/-! ## Claim theorems -/

/-- Claim C1: in every multi-region aggregation, the `review_id` values of the
returned collection are pairwise distinct; every admitted review is literally
an element of the review list of the region it is tagged with; and that tag is
the earliest region of the input list whose fetch succeeded and contained the
review's id, so later duplicates are discarded whole rather than merged. -/
theorem aggregation_ids_distinct_first_region_wins {α : Type}
    (getId : α → Option String) (fetch : String → Agg.RegionOutcome α)
    (countries : List String) :
    (Agg.accIds getId
      (Agg.fetch_reviews_multi_country getId fetch countries)).Nodup ∧
    ∀ t ∈ Agg.fetch_reviews_multi_country getId fetch countries,
      t.review ∈ Agg.okList (fetch t.fetched_from_country) ∧
      Agg.firstCountryWith getId fetch ((getId t.review).getD "") countries =
        some t.fetched_from_country := by
  constructor
  · exact Agg.multiGo_nodup getId fetch countries [] []
      (fun rid h => h) List.nodup_nil
  · intro t ht
    rcases Agg.multiGo_mem getId fetch countries [] [] t ht with
      h | ⟨hok, rid, hid, hne⟩
    · exact absurd h (List.not_mem_nil t)
    · refine ⟨hok, ?_⟩
      rcases Agg.multiGo_first getId fetch countries [] [] t rid ht hid with
        h | ⟨h1, h2⟩
      · exact absurd h (List.not_mem_nil t)
      · rw [hid]
        simp only [Option.getD_some]
        exact h2

/-- Witness for C1 at the spec's own scenario: us yields r1 and r2, gb yields
r2 and r3; the aggregate is exactly r1@us, r2@us, r3@gb and r2 is charged to
us, the earlier region. -/
theorem aggregation_ids_distinct_first_region_wins_witness :
    Agg.fetch_reviews_multi_country scenarioGetId scenarioFetch ["us", "gb"] =
      [⟨"r1", "us"⟩, ⟨"r2", "us"⟩, ⟨"r3", "gb"⟩] ∧
    (Agg.accIds scenarioGetId
      (Agg.fetch_reviews_multi_country scenarioGetId scenarioFetch
        ["us", "gb"])).Nodup ∧
    (⟨"r2", "us"⟩ : Agg.Tagged String).review ∈
      Agg.okList (scenarioFetch "us") ∧
    Agg.firstCountryWith scenarioGetId scenarioFetch "r2" ["us", "gb"] =
      some "us" := by
  refine ⟨by decide,
    (aggregation_ids_distinct_first_region_wins scenarioGetId scenarioFetch
      ["us", "gb"]).1, ?_, ?_⟩
  · exact ((aggregation_ids_distinct_first_region_wins scenarioGetId
      scenarioFetch ["us", "gb"]).2 ⟨"r2", "us"⟩ (by decide)).1
  · exact ((aggregation_ids_distinct_first_region_wins scenarioGetId
      scenarioFetch ["us", "gb"]).2 ⟨"r2", "us"⟩ (by decide)).2

/-- Claim C2 counterexample: when every region's upstream call fails (here a
raised network timeout in each region), `fetch_reviews_multi_country` returns
the plain empty list — its return type has no Error variant at all — rather
than the single Error result ("no reviews found across any region" /
TotalAggregationFailure) the claim requires. -/
theorem aggregation_total_failure_counterexample :
    GPlay.fetch_reviews_multi_country "com.example.app" (some ["us", "kr"])
      100 "en" "newest" false downEnv = [] := by decide

/-- Claim C2 (amended): when every region raises, errors, or returns an empty
success, the aggregation returns the empty list (no Error wrapping takes
place); a non-empty accumulated sequence is returned as-is. -/
theorem aggregation_all_regions_nothing_returns_empty {α : Type}
    (getId : α → Option String) (fetch : String → Agg.RegionOutcome α)
    (countries : List String)
    (h : ∀ c ∈ countries, (fetch c).nothingUsable = true) :
    Agg.fetch_reviews_multi_country getId fetch countries = [] :=
  Agg.multiGo_all_nothing getId fetch countries [] [] h

/-- Witness for the amended C2: two erroring regions aggregate to `[]`. -/
theorem aggregation_all_regions_nothing_returns_empty_witness :
    Agg.fetch_reviews_multi_country scenarioGetId errFetch ["us", "kr"] =
      [] :=
  aggregation_all_regions_nothing_returns_empty scenarioGetId errFetch
    ["us", "kr"] (by decide)

/-- Claim C9: a region whose single-region fetch raises or yields the error
singleton is skipped, and the aggregation of the remaining regions is exactly
what it would have been had the failing region not been in the list — so one
region's failure never aborts nor empties the aggregation. -/
theorem aggregation_failed_region_skipped {α : Type}
    (getId : α → Option String) (fetch : String → Agg.RegionOutcome α)
    (pre post : List String) (c : String)
    (h : (fetch c).isErrorOrRaise = true) :
    Agg.fetch_reviews_multi_country getId fetch (pre ++ c :: post) =
      Agg.fetch_reviews_multi_country getId fetch (pre ++ post) :=
  Agg.multiGo_skip getId fetch c h pre post [] []

/-- Witness for C9: inserting the failing region xx between us and gb leaves
the aggregate unchanged. -/
theorem aggregation_failed_region_skipped_witness :
    (scenarioFetch "xx").isErrorOrRaise = true ∧
    Agg.fetch_reviews_multi_country scenarioGetId scenarioFetch
      (["us"] ++ "xx" :: ["gb"]) =
      Agg.fetch_reviews_multi_country scenarioGetId scenarioFetch
        (["us"] ++ ["gb"]) :=
  ⟨by decide, aggregation_failed_region_skipped scenarioGetId scenarioFetch
    ["us"] ["gb"] "xx" (by decide)⟩

/-- Claim C10 (implicit): a review whose `review_id` is missing (`None`) or
empty is never admitted to a multi-region aggregate: every review in the
output has a truthy id (and, by construction of the output entries, a
`fetched_from_country` tag). -/
theorem aggregation_admitted_have_truthy_id {α : Type}
    (getId : α → Option String) (fetch : String → Agg.RegionOutcome α)
    (countries : List String) :
    ∀ t ∈ Agg.fetch_reviews_multi_country getId fetch countries,
      getId t.review ≠ none ∧ getId t.review ≠ some "" := by
  intro t ht
  rcases Agg.multiGo_mem getId fetch countries [] [] t ht with
    h | ⟨_, rid, hid, hne⟩
  · exact absurd h (List.not_mem_nil t)
  · constructor
    · rw [hid]
      exact fun hx => Option.noConfusion hx
    · rw [hid]
      intro hx
      exact hne (Option.some.inj hx)

/-- Witness for C10: a region delivering a `None`-id review, an empty-id
review and one good review contributes only the good review, whose id is
truthy. -/
theorem aggregation_admitted_have_truthy_id_witness :
    Agg.fetch_reviews_multi_country optGetId mixedFetch ["us", "de"] =
      [⟨some "ok1", "us"⟩] ∧
    optGetId (⟨some "ok1", "us"⟩ : Agg.Tagged (Option String)).review ≠
      none ∧
    optGetId (⟨some "ok1", "us"⟩ : Agg.Tagged (Option String)).review ≠
      some "" := by
  refine ⟨by decide, ?_, ?_⟩
  · exact (aggregation_admitted_have_truthy_id optGetId mixedFetch
      ["us", "de"] ⟨some "ok1", "us"⟩ (by decide)).1
  · exact (aggregation_admitted_have_truthy_id optGetId mixedFetch
      ["us", "de"] ⟨some "ok1", "us"⟩ (by decide)).2

/-- Claim C3 counterexample: under `text_only = true` the Google Play adapter
admits a review whose text is the single space " " — which is empty after
trimming — because its filter tests Python truthiness (`not review_text`)
instead of trimming; the claim that every admitted review's text is non-empty
after trimming is therefore false. -/
theorem text_only_whitespace_admitted_counterexample :
    GPlay.fetch_app_reviews "com.example.app" 100 "en" "us" "newest" true
      wsOutcome = .ok [wsReview] ∧
    wsReview.text = some " " ∧ pyStrip (wsReview.text.getD "") = "" := by
  refine ⟨by decide, by decide, by decide⟩

/-- Claim C3 (amended): under `text_only = true` the App Store adapter admits
only reviews whose text is non-empty after trimming, while the Google Play
adapter admits only reviews whose text is present and non-empty — but does
not trim, so whitespace-only text passes its filter. -/
theorem text_only_admission :
    (∀ (app_name country : String) (count : Int) (app_id : Option String)
      (sort : String) (outcome : AppStore.Outcome) (l : List AppStore.Review)
      (r : AppStore.Review),
      AppStore.fetch_app_reviews app_name country count app_id sort true
        outcome = .ok l → r ∈ l → pyStrip r.text ≠ "") ∧
    (∀ (app_id : String) (count : Int) (lang country sort : String)
      (outcome : GPlay.Outcome) (l : List GPlay.Review) (r : GPlay.Review),
      GPlay.fetch_app_reviews app_id count lang country sort true outcome =
        .ok l → r ∈ l → r.text.getD "" ≠ "") := by
  constructor
  · intro app_name country count app_id sort outcome l r h hr
    obtain ⟨aid, entries, _, _, _, hl⟩ :=
      AppStore.entries_ok_inversion app_name country count app_id sort true outcome
        l h
    subst hl
    obtain ⟨e, he, hfe⟩ := List.mem_filterMap.mp hr
    split at hfe
    · exact Option.noConfusion hfe
    · rename_i hneg
      have hre : r = AppStore.normalizeReview e := (Option.some.inj hfe).symm
      subst hre
      intro hx
      exact hneg ⟨rfl, hx⟩
  · intro app_id count lang country sort outcome l r h hr
    obtain ⟨data, _, _, hl⟩ :=
      GPlay.reviews_ok_inversion app_id count lang country sort true outcome l h
    subst hl
    obtain ⟨raw, hraw, hfe⟩ := List.mem_filterMap.mp hr
    split at hfe
    · exact Option.noConfusion hfe
    · rename_i hneg
      have hre : r = GPlay.normalizeReview raw := (Option.some.inj hfe).symm
      subst hre
      intro hx
      exact hneg ⟨rfl, hx⟩

/-- Witness for the amended C3 on both adapters at ordinary reviews. -/
theorem text_only_admission_witness :
    pyStrip (AppStore.normalizeReview feedReview).text ≠ "" ∧
    (GPlay.normalizeReview goodRaw).text.getD "" ≠ "" := by
  constructor
  · exact text_only_admission.1 "284882215" "us" 100 none "mostRecent"
      (.response 200 (.json [feedMeta, feedReview]))
      [AppStore.normalizeReview feedReview] (AppStore.normalizeReview feedReview)
      (by decide) (by decide)
  · exact text_only_admission.2 "com.example.app" 100 "en" "us" "newest"
      (.returns (some [goodRaw])) [GPlay.normalizeReview goodRaw]
      (GPlay.normalizeReview goodRaw) (by decide) (by decide)

/-- Claim C4 counterexample: the requested count is a Python `int`; for the
negative request `count = -1` the clamp `min(count, 500)` is `-1` and the
slice `review_entries[:-1]` keeps all but the last entry, so a feed of 502
review entries yields 501 returned reviews — more than 500 and more than
`min(count, 500)`. -/
theorem count_clamp_counterexample :
    500 < (AppStore.fetch_app_reviews "284882215" "us" (-1) none "mostRecent"
      false (.response 200 (.json bigFeed))).lengthOk := by decide

/-- Claim C4 (amended): for every nonnegative requested count, the App Store
adapter returns at most `min count 500` reviews, in particular at most 500. -/
theorem count_clamped_nonneg (app_name country : String) (count : Int)
    (app_id : Option String) (sort : String) (text_only : Bool)
    (outcome : AppStore.Outcome) (h : 0 ≤ count) :
    (AppStore.fetch_app_reviews app_name country count app_id sort text_only
      outcome).lengthOk ≤ min count.toNat 500 := by
  cases hres : AppStore.fetch_app_reviews app_name country count app_id sort
    text_only outcome with
  | err e => simp [FetchResult.lengthOk]
  | ok l =>
      obtain ⟨aid, entries, _, _, _, hl⟩ :=
        AppStore.entries_ok_inversion app_name country count app_id sort text_only
          outcome l hres
      subst hl
      simp only [FetchResult.lengthOk]
      have hk : 0 ≤ min count 500 := le_min h (by norm_num)
      have hslice : pySlice (min count 500) (entries.drop 1) =
          (entries.drop 1).take (min count 500).toNat := by
        rw [pySlice, if_pos hk]
      rw [hslice]
      have h1 := List.length_filterMap_le (fun entry =>
        if text_only = true ∧ pyStrip (entry.contentLabel.getD "") = "" then none
        else some (AppStore.normalizeReview entry))
        ((entries.drop 1).take (min count 500).toNat)
      have h2 := List.length_take (min count 500).toNat (entries.drop 1)
      omega

/-- Witness for the amended C4: requesting 100 from a 502-review feed returns
at most 100 reviews. -/
theorem count_clamped_nonneg_witness :
    (0 : Int) ≤ 100 ∧
    (AppStore.fetch_app_reviews "284882215" "us" 100 none "mostRecent" false
      (.response 200 (.json bigFeed))).lengthOk ≤ min (100 : Int).toNat 500 :=
  ⟨by decide, count_clamped_nonneg "284882215" "us" 100 none "mostRecent"
    false (.response 200 (.json bigFeed)) (by decide)⟩

/-- Claim C5 counterexample: the App Store adapter keeps the 1–5 rating as
the delivered string — a produced review carries `rating = "5"` (a Python
string, not numeric), so the claimed coercion to a numeric type never
happens. -/
theorem rating_coercion_counterexample :
    AppStore.fetch_app_reviews "284882215" "us" 100 none "mostRecent" false
      (.response 200 (.json [feedMeta, feedReview])) =
      .ok [AppStore.normalizeReview feedReview] ∧
    (AppStore.normalizeReview feedReview).rating = PyVal.vStr "5" ∧
    (AppStore.normalizeReview feedReview).rating.isNumeric = false := by
  refine ⟨by decide, by decide, by decide⟩

/-- Claim C5 (amended): no coercion is performed anywhere — every review the
App Store adapter produces has a string-typed rating (with string sentinel
"N/A" when the label is missing), and every review the Google Play adapter
produces carries the upstream `score` value unchanged. -/
theorem rating_passthrough :
    (∀ (app_name country : String) (count : Int) (app_id : Option String)
      (sort : String) (text_only : Bool) (outcome : AppStore.Outcome)
      (l : List AppStore.Review) (r : AppStore.Review),
      AppStore.fetch_app_reviews app_name country count app_id sort text_only
        outcome = .ok l → r ∈ l → r.rating.isStr = true) ∧
    (∀ (app_id : String) (count : Int) (lang country sort : String)
      (text_only : Bool) (data : List GPlay.RawReview)
      (l : List GPlay.Review) (r : GPlay.Review),
      GPlay.fetch_app_reviews app_id count lang country sort text_only
        (.returns (some data)) = .ok l → r ∈ l →
      r.rating ∈ data.map GPlay.RawReview.score) := by
  constructor
  · intro app_name country count app_id sort text_only outcome l r h hr
    obtain ⟨aid, entries, _, _, _, hl⟩ :=
      AppStore.entries_ok_inversion app_name country count app_id sort text_only
        outcome l h
    subst hl
    obtain ⟨e, he, hfe⟩ := List.mem_filterMap.mp hr
    split at hfe
    · exact Option.noConfusion hfe
    · have hre : r = AppStore.normalizeReview e := (Option.some.inj hfe).symm
      subst hre
      rfl
  · intro app_id count lang country sort text_only data l r h hr
    obtain ⟨data', houtcome, _, hl⟩ :=
      GPlay.reviews_ok_inversion app_id count lang country sort text_only
        (.returns (some data)) l h
    have hd : data' = data :=
      Option.some.inj (GPlay.Outcome.returns.inj houtcome.symm)
    subst hd
    subst hl
    obtain ⟨raw, hraw, hfe⟩ := List.mem_filterMap.mp hr
    split at hfe
    · exact Option.noConfusion hfe
    · have hre : r = GPlay.normalizeReview raw := (Option.some.inj hfe).symm
      subst hre
      exact List.mem_map.mpr ⟨raw, hraw, rfl⟩

/-- Witness for the amended C5 at concrete reviews of both adapters. -/
theorem rating_passthrough_witness :
    (AppStore.normalizeReview feedReview).rating.isStr = true ∧
    (GPlay.normalizeReview goodRaw).rating ∈
      [goodRaw].map GPlay.RawReview.score := by
  constructor
  · exact rating_passthrough.1 "284882215" "us" 100 none "mostRecent" false
      (.response 200 (.json [feedMeta, feedReview]))
      [AppStore.normalizeReview feedReview]
      (AppStore.normalizeReview feedReview) (by decide) (by decide)
  · exact rating_passthrough.2 "com.example.app" 100 "en" "us" "newest" false
      [goodRaw] [GPlay.normalizeReview goodRaw]
      (GPlay.normalizeReview goodRaw) (by decide) (by decide)

/-- Claim C6: for every upstream transport failure — a raised exception from
the Google Play scraping library, or a network error / non-200 status /
malformed body on the App Store feed — the fetch resolves to the Error
variant carrying the failure cause and the app identifier; no failure path
escapes the adapter. -/
theorem adapters_fail_to_error_variant :
    (∀ (app_id : String) (count : Int) (lang country sort : String)
      (text_only : Bool) (msg : String),
      GPlay.fetch_app_reviews app_id count lang country sort text_only
        (.raises msg) =
        .err { error := "Error fetching reviews: " ++ msg,
               app_id := some app_id }) ∧
    (∀ (app_id lang country msg : String),
      GPlay.fetch_app_info app_id lang country (.raises msg) =
        .error { error := "Error fetching app info: " ++ msg,
                 app_id := some app_id }) ∧
    (∀ (app_name country : String) (count : Int) (app_id : Option String)
      (sort : String) (text_only : Bool) (outcome : AppStore.Outcome)
      (aid : String), AppStore.resolveId app_name app_id = some aid →
      outcome.isFailure = true →
      (AppStore.fetch_app_reviews app_name country count app_id sort
        text_only outcome).isErr = true ∧
      (AppStore.fetch_app_reviews app_name country count app_id sort
        text_only outcome).errAppId = some aid ∧
      (AppStore.fetch_app_reviews app_name country count app_id sort
        text_only outcome).errMsg ≠ "") ∧
    (∀ (app_name country : String) (app_id : Option String) (now : String)
      (outcome : AppStore.Outcome) (aid : String),
      AppStore.resolveId app_name app_id = some aid →
      outcome.isFailure = true →
      infoIsErr (AppStore.fetch_app_info app_name country app_id now
        outcome) = true ∧
      infoErrAppId (AppStore.fetch_app_info app_name country app_id now
        outcome) = some aid ∧
      infoErrMsg (AppStore.fetch_app_info app_name country app_id now
        outcome) ≠ "") := by
  refine ⟨fun _ _ _ _ _ _ _ => rfl, fun _ _ _ _ => rfl, ?_, ?_⟩
  · intro app_name country count app_id sort text_only outcome aid hres hfail
    cases outcome with
    | networkError msg =>
        have hfetch : AppStore.fetch_app_reviews app_name country count
            app_id sort text_only (.networkError msg) =
            .err { error := "Network error: " ++ msg, app_id := some aid } := by
          simp [AppStore.fetch_app_reviews, hres]
        rw [hfetch]
        exact ⟨rfl, rfl, append_ne_empty_of_left _ _ (by decide)⟩
    | response status body =>
        by_cases hs : status = 200
        · subst hs
          cases body with
          | malformed msg =>
              have hfetch : AppStore.fetch_app_reviews app_name country count
                  app_id sort text_only (.response 200 (.malformed msg)) =
                  .err { error := "Error fetching App Store reviews: " ++ msg,
                         app_id := some aid } := by
                simp [AppStore.fetch_app_reviews, hres]
              rw [hfetch]
              exact ⟨rfl, rfl, append_ne_empty_of_left _ _ (by decide)⟩
          | json entries => simp [AppStore.Outcome.isFailure] at hfail
        · have hfetch : AppStore.fetch_app_reviews app_name country count
              app_id sort text_only (.response status body) =
              .err { error := "Failed to fetch reviews (HTTP " ++
                       toString status ++ ")", app_id := some aid } := by
            simp [AppStore.fetch_app_reviews, hres, hs]
          rw [hfetch]
          exact ⟨rfl, rfl, append_ne_empty_of_left _ _
            (append_ne_empty_of_left _ _ (by decide))⟩
  · intro app_name country app_id now outcome aid hres hfail
    cases outcome with
    | networkError msg =>
        have hfetch : AppStore.fetch_app_info app_name country app_id now
            (.networkError msg) =
            .error { error := "Network error: " ++ msg,
                     app_id := some aid } := by
          simp [AppStore.fetch_app_info, hres]
        rw [hfetch]
        exact ⟨rfl, rfl, append_ne_empty_of_left _ _ (by decide)⟩
    | response status body =>
        by_cases hs : status = 200
        · subst hs
          cases body with
          | malformed msg =>
              have hfetch : AppStore.fetch_app_info app_name country app_id
                  now (.response 200 (.malformed msg)) =
                  .error { error := "Error fetching App Store info: " ++ msg,
                           app_id := some aid } := by
                simp [AppStore.fetch_app_info, hres]
              rw [hfetch]
              exact ⟨rfl, rfl, append_ne_empty_of_left _ _ (by decide)⟩
          | json entries => simp [AppStore.Outcome.isFailure] at hfail
        · have hfetch : AppStore.fetch_app_info app_name country app_id now
              (.response status body) =
              .error { error := "Failed to fetch app info (HTTP " ++
                         toString status ++ ")", app_id := some aid } := by
            simp [AppStore.fetch_app_info, hres, hs]
          rw [hfetch]
          exact ⟨rfl, rfl, append_ne_empty_of_left _ _
            (append_ne_empty_of_left _ _ (by decide))⟩

/-- Witness for C6: a raised exception on Google Play and a network error on
the App Store both produce the Error variant with cause and identifier. -/
theorem adapters_fail_to_error_variant_witness :
    GPlay.fetch_app_reviews "com.example.app" 100 "en" "us" "newest" false
      (.raises "Read timed out") =
      .err { error := "Error fetching reviews: " ++ "Read timed out",
             app_id := some "com.example.app" } ∧
    ((AppStore.fetch_app_reviews "284882215" "us" 100 none "mostRecent" false
      (.networkError "timed out")).isErr = true ∧
    (AppStore.fetch_app_reviews "284882215" "us" 100 none "mostRecent" false
      (.networkError "timed out")).errAppId = some "284882215" ∧
    (AppStore.fetch_app_reviews "284882215" "us" 100 none "mostRecent" false
      (.networkError "timed out")).errMsg ≠ "") :=
  ⟨adapters_fail_to_error_variant.1 "com.example.app" 100 "en" "us" "newest"
      false "Read timed out",
   adapters_fail_to_error_variant.2.2.1 "284882215" "us" 100 none
      "mostRecent" false (.networkError "timed out") "284882215" (by decide)
      rfl⟩

/-- Claim C7: the App Store adapter treats only entries after the first feed
entry as reviews — every returned review is the normalization of an entry of
`entries.drop 1` — and a feed with no entries after the first produces the
single "No reviews found for this app" policy error, not a transport
failure. -/
theorem appstore_first_entry_excluded (app_name country : String)
    (count : Int) (app_id : Option String) (sort : String) (text_only : Bool)
    (aid : String) (entries : List AppStore.Entry)
    (hres : AppStore.resolveId app_name app_id = some aid) :
    (entries.length ≤ 1 →
      AppStore.fetch_app_reviews app_name country count app_id sort text_only
        (.response 200 (.json entries)) =
        .err { error := "No reviews found for this app", app_id := some aid,
               note := some "The app may not have any reviews yet, or reviews may be disabled." }) ∧
    (∀ (l : List AppStore.Review) (r : AppStore.Review),
      AppStore.fetch_app_reviews app_name country count app_id sort text_only
        (.response 200 (.json entries)) = .ok l → r ∈ l →
      r ∈ (entries.drop 1).map AppStore.normalizeReview) := by
  constructor
  · intro hlen
    have hlt : ¬ 1 < entries.length := by omega
    simp [AppStore.fetch_app_reviews, hres, hlt]
  · intro l r h hr
    obtain ⟨aid', entries', _, houtcome, _, hl⟩ :=
      AppStore.entries_ok_inversion app_name country count app_id sort text_only
        (.response 200 (.json entries)) l h
    have hbody := (AppStore.Outcome.response.inj houtcome).2
    have hent : entries = entries' := AppStore.Body.json.inj hbody
    subst hent
    subst hl
    obtain ⟨e, he, hfe⟩ := List.mem_filterMap.mp hr
    have hesub : e ∈ entries.drop 1 := pySlice_subset _ _ he
    split at hfe
    · exact Option.noConfusion hfe
    · have hre : r = AppStore.normalizeReview e := (Option.some.inj hfe).symm
      subst hre
      exact List.mem_map.mpr ⟨e, hesub, rfl⟩

/-- Witness for C7 at the spec's scenario identifier 284882215: a feed with
only the metadata entry yields the policy error, and with one review entry
the returned review is the normalization of the entry after the first. -/
theorem appstore_first_entry_excluded_witness :
    AppStore.fetch_app_reviews "284882215" "us" 100 none "mostRecent" false
      (.response 200 (.json [feedMeta])) =
      .err { error := "No reviews found for this app",
             app_id := some "284882215",
             note := some "The app may not have any reviews yet, or reviews may be disabled." } ∧
    AppStore.normalizeReview feedReview ∈
      ([feedMeta, feedReview].drop 1).map AppStore.normalizeReview := by
  constructor
  · exact (appstore_first_entry_excluded "284882215" "us" 100 none
      "mostRecent" false "284882215" [feedMeta] (by decide)).1 (by decide)
  · exact (appstore_first_entry_excluded "284882215" "us" 100 none
      "mostRecent" false "284882215" [feedMeta, feedReview] (by decide)).2
      [AppStore.normalizeReview feedReview] (AppStore.normalizeReview
      feedReview) (by decide) (by decide)

/-- Claim C8 counterexample: handing the boundary sort value "newest" to the
App Store adapter selects the upstream sort "mostHelpful", not "mostRecent";
the newest-to-mostRecent remap claimed for this adapter happens only in the
excluded UI layer. -/
theorem sort_remap_counterexample :
    AppStore.sort_by "newest" = "mostHelpful" ∧
    ("mostHelpful" : String) ≠ "mostRecent" :=
  ⟨by decide, by decide⟩

/-- Claim C8 (amended): the Google Play adapter maps newest, rating and
helpfulness (case-insensitively) to NEWEST, RATING and RELEVANT; the App
Store adapter's own vocabulary is mostRecent / mostHelpful — it keeps
mostRecent and maps every other value, "newest" included, to mostHelpful. -/
theorem sort_remap (s : String) :
    GPlay.sort_value "newest" = "NEWEST" ∧
    GPlay.sort_value "rating" = "RATING" ∧
    GPlay.sort_value "helpfulness" = "RELEVANT" ∧
    AppStore.sort_by "mostRecent" = "mostRecent" ∧
    (s ≠ "mostRecent" → AppStore.sort_by s = "mostHelpful") := by
  refine ⟨by decide, by decide, by decide, by decide, ?_⟩
  intro hs
  simp [AppStore.sort_by, hs]

/-- Witness for the amended C8 at the boundary value "newest". -/
theorem sort_remap_witness :
    GPlay.sort_value "newest" = "NEWEST" ∧
    AppStore.sort_by "newest" = "mostHelpful" :=
  ⟨(sort_remap "newest").1, (sort_remap "newest").2.2.2.2 (by decide)⟩
